import Mathlib

/-!
The collector package of redfish_exporter.

A shallow embedding of `collector/redfish_collector.go` and
`collector/manager_collector.go`.

* A `chan<- prometheus.Metric` is the list of samples sent on it, oldest first.
* A `float64` is a rational number: every value the package computes is one
  (0, 1, a slice length, a mapped code, a number of seconds).
* A Go `map` is an association list with distinct keys; a `range` over it visits
  the entries in an order chosen by the runtime, given here by an `Iteration`.
* A panic is the result `none`.
* A remote call is modelled by the result it returns.
* A Go `string` is a sequence of bytes. The strings of the inventory are decoded from
  JSON by the client library and are valid UTF-8: they are Lean strings. The host, user
  name and password come from the caller; the host ends up as a label value, so it is a
  `GoString`, which may or may not be valid UTF-8.
-/

namespace Collector

/-! ## Go strings -/

/-- A Go `string` as the metrics library sees it: valid UTF-8, given by its text, or
not valid UTF-8, given by its bytes. -/
inductive GoString where
  | utf8 (text : String)
  | invalid (bytes : List Nat)
  deriving DecidableEq, Repr

instance : Coe String GoString := ⟨GoString.utf8⟩

/-- The library function `utf8.ValidString` together with the text it accepts. -/
def GoString.text : GoString → Option String
  | .utf8 text => some text
  | .invalid _ => none

/-- The bytes of a text. -/
def utf8Bytes (text : String) : List Nat := text.toUTF8.toList.map (·.toNat)

/-- The string `fmt.Sprintf(p + "%s", s)` for a text `p`. -/
def GoString.prepend (p : String) : GoString → GoString
  | .utf8 text => .utf8 (p ++ text)
  | .invalid bytes => .invalid (utf8Bytes p ++ bytes)

/-- The texts of a list of label values; nothing when one of them is not valid
UTF-8. -/
def validLabelValues : List GoString → Option (List String)
  | [] => some []
  | v :: vs =>
    match v.text with
    | none => none
    | some text =>
      match validLabelValues vs with
      | none => none
      | some texts => some (text :: texts)

/-! ## The metrics library, at the interface the package uses -/

/-- The exported fields of a `prometheus.Desc`: fully qualified name, help text and
the names of the variable labels (the package passes `nil` constant labels). -/
structure Desc where
  fqName : String
  help : String
  variableLabels : List String
  deriving DecidableEq, Repr

/-- One metric sent on the channel: its descriptor, value and label values. -/
structure Sample where
  desc : Desc
  value : ℚ
  labelValues : List String
  deriving DecidableEq, Repr

/-- The library function `prometheus.BuildFQName`: joins the non-empty parts with
an underscore, and is empty when the name is. -/
def BuildFQName (namespace_ subsystem name : String) : String :=
  if name = "" then ""
  else if namespace_ ≠ "" ∧ subsystem ≠ "" then namespace_ ++ "_" ++ subsystem ++ "_" ++ name
  else if namespace_ ≠ "" then namespace_ ++ "_" ++ name
  else if subsystem ≠ "" then subsystem ++ "_" ++ name
  else name

/-- The library function `prometheus.NewDesc` with no constant labels. -/
def NewDesc (fqName help : String) (variableLabels : List String) : Desc :=
  ⟨fqName, help, variableLabels⟩

/-- The library function `prometheus.MustNewConstMetric` for a gauge value: it panics
(`none`) when the number of label values differs from the number of variable labels
of the descriptor, or when a label value is not valid UTF-8. The descriptors of the
package have well-formed names, help texts and label names, so the descriptor itself
carries no error. -/
def MustNewConstMetric (desc : Desc) (value : ℚ) (labelValues : List GoString) : Option Sample :=
  if labelValues.length = desc.variableLabels.length then
    match validLabelValues labelValues with
    | none => none
    | some texts => some ⟨desc, value, texts⟩
  else none

/-- A `prometheus.Gauge`: its descriptor and the value last set. -/
structure Gauge where
  desc : Desc
  value : ℚ
  deriving DecidableEq, Repr

/-- The library function `prometheus.NewGauge(GaugeOpts{Namespace, Subsystem, Name, Help})`:
a gauge without labels, initially 0. -/
def NewGauge (namespace_ subsystem name help : String) : Gauge :=
  ⟨NewDesc (BuildFQName namespace_ subsystem name) help [], 0⟩

/-- The method `Gauge.Set`. -/
def Gauge.Set (g : Gauge) (v : ℚ) : Gauge := { g with value := v }

/-- The metric a gauge is when it is sent on the channel. -/
def Gauge.sample (g : Gauge) : Sample := ⟨g.desc, g.value, []⟩

/-- A `prometheus.GaugeVec`: its descriptor and the gauges created so far, by label
values. -/
structure GaugeVec where
  desc : Desc
  children : List (List String × ℚ)
  deriving DecidableEq, Repr

/-- The library function `prometheus.NewGaugeVec(GaugeOpts{Namespace, Name, Help}, labelNames)`. -/
def NewGaugeVec (namespace_ name help : String) (labelNames : List String) : GaugeVec :=
  ⟨NewDesc (BuildFQName namespace_ "" name) help labelNames, []⟩

/-- The method `GaugeVec.Describe`: sends the one descriptor of the vector. -/
def GaugeVec.Describe (g : GaugeVec) : List Desc := [g.desc]

/-- The call `g.WithLabelValues(lvs...).Set(v)`: panics (`none`) on a wrong number of
label values, else creates or overwrites the gauge of these label values. -/
def GaugeVec.WithLabelValuesSet (g : GaugeVec) (lvs : List String) (v : ℚ) : Option GaugeVec :=
  if lvs.length = g.desc.variableLabels.length then
    some { g with children := (lvs, v) :: g.children.filter (fun c => decide (c.1 ≠ lvs)) }
  else none

/-! ## Go maps -/

/-- A Go map, as the list of its entries; the keys are distinct. -/
abbrev GoMap (κ ν : Type) := List (κ × ν)

/-- The read `m[k]` of a Go map: the zero value `zero` when the key is absent. -/
def GoMap.get {κ ν : Type} [DecidableEq κ] (m : GoMap κ ν) (k : κ) (zero : ν) : ν :=
  match m with
  | [] => zero
  | (k', v) :: rest => if k' = k then v else GoMap.get rest k zero

/-- The read `m[k]` of a map of structs holding a pointer: nothing when the key is
absent (the zero value, whose pointer is nil). -/
def GoMap.find {κ ν : Type} [DecidableEq κ] (m : GoMap κ ν) (k : κ) : Option ν :=
  match m with
  | [] => none
  | (k', v) :: rest => if k' = k then some v else GoMap.find rest k

/-- The assignment `m[k] = v` of a Go map. -/
def GoMap.set {κ ν : Type} [DecidableEq κ] (m : GoMap κ ν) (k : κ) (v : ν) : GoMap κ ν :=
  match m with
  | [] => [(k, v)]
  | (k', v') :: rest => if k' = k then (k, v) :: rest else (k', v') :: GoMap.set rest k v

/-- The order in which one `range` statement visits the entries of a map: some
rearrangement of the entries. -/
structure Iteration (α : Type) where
  order : List α → List α
  perm : ∀ l, (order l).Perm l

/-- The iteration that visits the entries as stored. -/
def Iteration.stored (α : Type) : Iteration α := ⟨id, fun l => List.Perm.refl l⟩

/-- The iteration that visits the entries last to first. -/
def Iteration.backwards (α : Type) : Iteration α := ⟨List.reverse, fun l => List.reverse_perm l⟩

/-! ## redfish_collector.go -/

/-- Exporter namespace. -/
def namespace_ : String := "redfish"

/-- Subsystem. -/
def exporter : String := "exporter"

/-- The package variable `BaseLabelNames`. -/
def BaseLabelNames : List String := ["host"]

/-- The package variable `totalScrapeDurationDesc`. -/
def totalScrapeDurationDesc : Desc :=
  NewDesc (BuildFQName namespace_ exporter "collector_duration_seconds")
    "Collector time duration." BaseLabelNames

/-- The mutable package variables. `BaseLabelValues = make([]string, 1, 1)` is a slice
of length and capacity one that the package only writes at index 0 and never
re-slices; `elem0` is its one element. -/
structure Globals where
  elem0 : GoString
  deriving DecidableEq, Repr

/-- The package variables when the package is loaded: the one element is the empty
string. -/
def Globals.init : Globals := ⟨GoString.utf8 ""⟩

/-- The slice `BaseLabelValues`. -/
def Globals.BaseLabelValues (g : Globals) : List GoString := [g.elem0]

/-- The fields of `gofish.ApiClient` the package touches. -/
structure ApiClient where
  endpoint : GoString
  Token : String
  deriving DecidableEq, Repr

/-- A `prometheus.Collector` registered with the orchestrator, over the state `σ` of
whatever it reads and writes: the descriptors its `Describe` sends, and its `Collect`,
which given the state either panics (`none`) or returns, with the samples it sent and
the state it leaves. -/
structure SubCollector (σ : Type) where
  Describe : List Desc
  Collect : σ → Option (List Sample × σ)

/-- The struct `RedfishCollector`. -/
structure RedfishCollector (σ : Type) where
  redfishClient : ApiClient
  collectors : GoMap String (SubCollector σ)
  redfishUp : Gauge
  redfishUpValue : ℚ

/-- The method `RedfishCollector.Describe`: one `range` over the registry, each
sub-collector's `Describe` in turn. -/
def RedfishCollector.Describe {σ : Type} (r : RedfishCollector σ)
    (it : Iteration (String × SubCollector σ)) : List Desc :=
  (it.order r.collectors).foldl (fun ch c => ch ++ c.2.Describe) []

/-- What one call of `RedfishCollector.Collect` leaves behind: the samples sent on the
channel, the liveness gauge, the keys of the sub-collectors whose `Collect` was called
(in call order) and the state the sub-collectors share. -/
structure Scrape (σ : Type) where
  ch : List Sample
  redfishUp : Gauge
  invoked : List String
  state : σ

/-- The loop `for _, collector := range r.collectors { collector.Collect(ch) }` over the
entries in the order visited, from the channel, the keys called and the state so far.
Nothing recovers a panic: when a sub-collector panics the loop does (`none`). -/
def collectAll {σ : Type} (cs : List (String × SubCollector σ)) (ch : List Sample)
    (invoked : List String) (s : σ) : Option (List Sample × List String × σ) :=
  cs.foldl
    (fun acc c =>
      match acc with
      | none => none
      | some (ch, invoked, s) =>
        match c.2.Collect s with
        | none => none
        | some (sent, s1) => some (ch ++ sent, invoked ++ [c.1], s1))
    (some (ch, invoked, s))

/-- The method `RedfishCollector.Collect`: it panics (`none`) or returns. `elapsed` is
what `time.Since(scrapeTime).Seconds()` returns at the end of the call. -/
def RedfishCollector.Collect {σ : Type} (g : Globals) (r : RedfishCollector σ)
    (it : Iteration (String × SubCollector σ)) (elapsed : ℚ) (s : σ) : Option (Scrape σ) :=
  let mid : Option (Scrape σ) :=
    if r.redfishUpValue = 1 then
      let up := r.redfishUp.Set r.redfishUpValue
      match collectAll (it.order r.collectors) [up.sample] [] s with
      | none => none
      | some res => some ⟨res.1, up, res.2.1, res.2.2⟩
    else
      let up := r.redfishUp.Set r.redfishUpValue
      some ⟨[up.sample], up, [], s⟩
  match mid with
  | none => none
  | some mid =>
    match MustNewConstMetric totalScrapeDurationDesc elapsed g.BaseLabelValues with
    | none => none
    | some d => some { mid with ch := mid.ch ++ [d] }

/-- How a call that may end the process ends: it returns a result, or the process
exits with a status. -/
inductive Outcome (α : Type) where
  | returned (a : α)
  | exited (status : Nat)
  deriving DecidableEq, Repr

/-- Sequencing: the statements `next` after a call run only when the call returns. -/
def Outcome.andThen {α β : Type} (call : Outcome α) (next : α → Outcome β) : Outcome β :=
  match call with
  | .returned a => next a
  | .exited status => .exited status

/-- The library function `log.Fatalf`: logs the message, then ends the process with
exit status 1. -/
def logFatalf : Outcome Unit := Outcome.exited 1

/-- The nil client a failed `gofish.APIClient` hands back. -/
def nilClient : ApiClient := ⟨GoString.utf8 "", ""⟩

/-- The service root returned by `gofish.ServiceRoot`. -/
structure ServiceRoot where
  odataID : String
  deriving DecidableEq, Repr

/-- The session returned by `service.CreateSession`. -/
structure Auth where
  Token : String
  deriving DecidableEq, Repr

/-- The remote endpoint during bootstrap: the result of each of the three calls. -/
structure Endpoint where
  APIClient : GoString → Except String ApiClient
  ServiceRoot : ApiClient → Except String Collector.ServiceRoot
  CreateSession : Collector.ServiceRoot → String → String → Except String Auth

/-- The function `newRedfishClient`: it returns the client and the liveness value, or
the process exits. -/
def newRedfishClient (remote : Endpoint) (host : GoString) (username password : String) :
    Outcome (ApiClient × ℚ) :=
  let url := GoString.prepend "https://" host
  match remote.APIClient url with
  | .error _ => logFatalf.andThen fun _ => .returned (nilClient, 0)
  | .ok redfishClient =>
    match remote.ServiceRoot redfishClient with
    | .error _ => logFatalf.andThen fun _ => .returned (redfishClient, 0)
    | .ok service =>
      match remote.CreateSession service username password with
      | .error _ => logFatalf.andThen fun _ => .returned (redfishClient, 0)
      | .ok auth => .returned ({ redfishClient with Token := auth.Token }, 1)

/-- The function `NewRedfishCollector`, from the package variables before the call to
the orchestrator and the package variables after it. `NewMemoryCollector` is declared
in another file of the package and is taken as given. -/
def NewRedfishCollector {σ : Type} (remote : Endpoint)
    (NewMemoryCollector : String → ApiClient → SubCollector σ) (g : Globals)
    (host : GoString) (username password : String) : Outcome (RedfishCollector σ × Globals) :=
  let g1 : Globals := { g with elem0 := host }
  (newRedfishClient remote host username password).andThen fun (redfishClient, redfishUpValue) =>
    let memoryCollector := NewMemoryCollector namespace_ redfishClient
    .returned
      ({ redfishClient := redfishClient
         collectors := [("Memory", memoryCollector)]
         redfishUp := NewGauge namespace_ "" "up" "redfish up"
         redfishUpValue := redfishUpValue }, g1)

/-! ## manager_collector.go -/

/-- The struct `managerMetric`. -/
structure managerMetric where
  desc : Desc
  deriving DecidableEq, Repr

/-- The struct `logServiceMetric`. -/
structure logServiceMetric where
  desc : Desc
  deriving DecidableEq, Repr

/-- The manager subsystem. -/
def ManagerSubmanager : String := "manager"

/-- The package variable `ManagerLabelNames`. -/
def ManagerLabelNames : List String := ["manager_id", "name", "model", "type"]

/-- The package variable `managerMetrics`. -/
def managerMetrics : GoMap String managerMetric :=
  [ ("manager_state",
      ⟨NewDesc (BuildFQName namespace_ ManagerSubmanager "state")
        "manager state,1(Enabled),2(Disabled),3(StandbyOffinline),4(StandbySpare),5(InTest),6(Starting),7(Absent),8(UnavailableOffline),9(Deferring),10(Quiesced),11(Updating)"
        ManagerLabelNames⟩),
    ("manager_health_state",
      ⟨NewDesc (BuildFQName namespace_ ManagerSubmanager "health_state")
        "manager health,1(OK),2(Warning),3(Critical)" ManagerLabelNames⟩),
    ("manager_power_state",
      ⟨NewDesc (BuildFQName namespace_ ManagerSubmanager "power_state")
        "manager power state" ManagerLabelNames⟩) ]

/-- The package variable `logServiceLabelNames`. -/
def logServiceLabelNames : List String := ["name", "severity"]

/-- The package variable `logServiceMetrics`. -/
def logServiceMetrics : GoMap String logServiceMetric :=
  [ ("entry_count",
      ⟨NewDesc (BuildFQName namespace_ "logservices" "entry_count")
        "Number of log messages" logServiceLabelNames⟩) ]

/-- The fields of `redfish.LogEntry` the package reads, and its identifier. `Severity`
is a `redfish.EventSeverity`, a string type. -/
structure LogEntry where
  ID : String
  Severity : String
  deriving DecidableEq, Repr

/-- A `redfish.LogService`: its name and the result of its method `Entries()`. -/
structure LogService where
  Name : String
  Entries : Except String (List LogEntry)

/-- The struct `common.Status`: state and health, both string types. -/
structure Status where
  State : String
  Health : String
  deriving DecidableEq, Repr

/-- A `redfish.Manager`: the fields the package reads (all of string types) and the
result of its method `LogServices()`. -/
structure Manager where
  ID : String
  Name : String
  Model : String
  ManagerType : String
  PowerState : String
  Status : Status
  LogServices : Except String (List LogService)

/-- The service of the client: the result of its method `Managers()`. -/
structure Service where
  Managers : Except String (List Manager)

/-- The field of `gofish.APIClient` the manager collector reads. -/
structure APIClient where
  Service : Service

/-- The struct `ManagerCollector`; `collectorScrapeDuration` is never assigned nor
read. -/
structure ManagerCollector where
  redfishClient : APIClient
  metrics : GoMap String managerMetric
  logServiceMetrics : GoMap String logServiceMetric
  collectorScrapeStatus : GaugeVec

/-- The function `NewManagerCollector`. -/
def NewManagerCollector (namespace_ : String) (redfishClient : APIClient) : ManagerCollector :=
  { redfishClient := redfishClient
    metrics := managerMetrics
    logServiceMetrics := logServiceMetrics
    collectorScrapeStatus :=
      NewGaugeVec namespace_ "collector_scrape_status" "collector_scrape_status" ["collector"] }

/-- The method `ManagerCollector.Describe`: one `range` over `m.metrics`, then the
descriptor of the scrape-status vector. -/
def ManagerCollector.Describe (m : ManagerCollector) (it : Iteration (String × managerMetric)) :
    List Desc :=
  (it.order m.metrics).foldl (fun ch metric => ch ++ [metric.2.desc]) []
    ++ m.collectorScrapeStatus.Describe

/-- The three state-mapping functions of the package, `string -> (float64, bool)`; they
are declared in another file and are taken as given. -/
structure StateMapping where
  parseCommonStatusHealth : String → ℚ × Bool
  parseCommonStatusState : String → ℚ × Bool
  parseCommonPowerState : String → ℚ × Bool

/-- The verb `%v` of `fmt.Sprintf` at a value of a string type. -/
def sprintfV (s : String) : String := s

/-- The body of a `for i, x := range xs` loop over a slice, run for every element in
order from index `i` on; the samples sent are those of the iterations in turn, and a
panic in one iteration is a panic of the loop. -/
def rangeSlice {α : Type} (body : Nat → α → Option (List Sample)) :
    Nat → List α → Option (List Sample)
  | _, [] => some []
  | i, x :: xs =>
    match body i x with
    | none => none
    | some sent =>
      match rangeSlice body (i + 1) xs with
      | none => none
      | some later => some (sent ++ later)

/-- The statement `ch <- prometheus.MustNewConstMetric(metric.desc, prometheus.GaugeValue,
value, labelValues...)` where `metric` was read from a map and the label values are
strings of the inventory: a panic when the key was absent (the descriptor is then nil)
or the constructor panics. -/
def send (desc : Option Desc) (value : ℚ) (labelValues : List String) : Option (List Sample) :=
  match desc with
  | none => none
  | some d =>
    match MustNewConstMetric d value (labelValues.map GoString.utf8) with
    | none => none
    | some sample => some [sample]

/-- Lines 146-149: the map from severity to the entries of that severity, in the order
the entries came. -/
def entryMapOf (logEntries : List LogEntry) : GoMap String (List LogEntry) :=
  logEntries.foldl
    (fun entryMap entry => entryMap.set entry.Severity (entryMap.get entry.Severity [] ++ [entry]))
    []

/-- Lines 142-155: the body of the loop over the log services of a manager. -/
def logServiceBody (m : ManagerCollector) (it : Iteration (String × List LogEntry))
    (logService : LogService) : Option (List Sample) :=
  let logServiceName := logService.Name
  match logService.Entries with
  | .error _ => some []
  | .ok logEntries =>
    let entryMap := entryMapOf logEntries
    rangeSlice
      (fun _ (kv : String × List LogEntry) =>
        let logServiceLabelValues := [logServiceName, kv.1]
        let count : ℚ := (kv.2.length : ℚ)
        send ((m.logServiceMetrics.find "entry_count").map (·.desc)) count logServiceLabelValues)
      0 (it.order entryMap)

/-- Lines 116-135: the status samples of one manager. -/
def managerStatus (f : StateMapping) (m : ManagerCollector) (manager : Manager) :
    Option (List Sample) :=
  let ManagerID := manager.ID
  let managerName := manager.Name
  let managerModel := manager.Model
  let managerType := sprintfV manager.ManagerType
  let managerPowerState := manager.PowerState
  let managerState := manager.Status.State
  let managerHealthState := manager.Status.Health
  let ManagerLabelValues := [ManagerID, managerName, managerModel, managerType]
  let health :=
    if (f.parseCommonStatusHealth managerHealthState).2 then
      send ((m.metrics.find "manager_health_state").map (·.desc))
        (f.parseCommonStatusHealth managerHealthState).1 ManagerLabelValues
    else some []
  let state :=
    if (f.parseCommonStatusState managerState).2 then
      send ((m.metrics.find "manager_state").map (·.desc))
        (f.parseCommonStatusState managerState).1 ManagerLabelValues
    else some []
  let power :=
    if (f.parseCommonPowerState managerPowerState).2 then
      send ((m.metrics.find "manager_power_state").map (·.desc))
        (f.parseCommonPowerState managerPowerState).1 ManagerLabelValues
    else some []
  match health with
  | none => none
  | some h =>
    match state with
    | none => none
    | some s =>
      match power with
      | none => none
      | some p => some (h ++ s ++ p)

/-- Lines 138-157: the log services of one manager, the `i`-th of the list. -/
def managerLogServices (m : ManagerCollector)
    (it : Nat → Nat → Iteration (String × List LogEntry)) (i : Nat) (manager : Manager) :
    Option (List Sample) :=
  match manager.LogServices with
  | .error _ => some []
  | .ok logServices => rangeSlice (fun j logService => logServiceBody m (it i j) logService) 0 logServices

/-- Lines 113-159: the body of the loop over the managers. -/
def managerBody (f : StateMapping) (m : ManagerCollector)
    (it : Nat → Nat → Iteration (String × List LogEntry)) (i : Nat) (manager : Manager) :
    Option (List Sample) :=
  match managerStatus f m manager with
  | none => none
  | some status =>
    match managerLogServices m it i manager with
    | none => none
    | some logs => some (status ++ logs)

/-- The method `ManagerCollector.Collect`: the samples sent on the channel and the
scrape-status vector after the call. `it i j` is the order in which the severity map
of the `j`-th log service of the `i`-th manager is visited. -/
def ManagerCollector.Collect (f : StateMapping) (m : ManagerCollector)
    (it : Nat → Nat → Iteration (String × List LogEntry)) : Option (List Sample × GaugeVec) :=
  let service := m.redfishClient.Service
  match service.Managers with
  | .error _ => some ([], m.collectorScrapeStatus)
  | .ok managers =>
    match rangeSlice (managerBody f m it) 0 managers with
    | none => none
    | some ch =>
      match m.collectorScrapeStatus.WithLabelValuesSet ["manager"] 1 with
      | none => none
      | some status => some (ch, status)

/-! ## Definitions used to state the properties -/

/-- Spec-side reading of "every sample produced by the Collect of every registered
sub-collector": the output of each sub-collector of `cs` in turn, each one called once
on the state its predecessor left, and the state the last one leaves; nothing when one
of these calls panics. -/
def outputsInTurn {σ : Type} :
    List (String × SubCollector σ) → σ → Option (List (List Sample) × σ)
  | [], s => some ([], s)
  | c :: cs, s =>
    match c.2.Collect s with
    | none => none
    | some (sent, s1) =>
      match outputsInTurn cs s1 with
      | none => none
      | some (outs, s2) => some (sent :: outs, s2)

/-- An endpoint where every bootstrap call succeeds. -/
def reachable : Endpoint :=
  { APIClient := fun url => .ok ⟨url, ""⟩
    ServiceRoot := fun _ => .ok ⟨"/redfish/v1"⟩
    CreateSession := fun _ _ _ => .ok ⟨"token"⟩ }

/-- An endpoint that refuses the connection of the API client. -/
def unreachable : Endpoint :=
  { APIClient := fun _ => .error "connection refused"
    ServiceRoot := fun _ => .ok ⟨"/redfish/v1"⟩
    CreateSession := fun _ _ _ => .ok ⟨"token"⟩ }

/-- An endpoint that serves no service root. -/
def noServiceRoot : Endpoint :=
  { APIClient := fun url => .ok ⟨url, ""⟩
    ServiceRoot := fun _ => .error "404"
    CreateSession := fun _ _ _ => .ok ⟨"token"⟩ }

/-- An endpoint that rejects the credentials. -/
def unauthorized : Endpoint :=
  { APIClient := fun url => .ok ⟨url, ""⟩
    ServiceRoot := fun _ => .ok ⟨"/redfish/v1"⟩
    CreateSession := fun _ _ _ => .error "401" }

/-- A descriptor of a memory collector. -/
def memoryDesc : Desc := NewDesc (BuildFQName namespace_ "memory" "health_state") "memory health" ["memory_id"]

/-- A memory collector over a counter of calls: each call sends one sample, whose value
is the number of earlier calls, and counts itself. -/
def countingMemoryCollector (_ : String) (_ : ApiClient) : SubCollector Nat :=
  { Describe := [memoryDesc]
    Collect := fun n => some ([⟨memoryDesc, (n : ℚ), ["dimm0"]⟩], n + 1) }

/-- A memory collector that builds its sample with one label value too many, so that
`MustNewConstMetric` panics. -/
def brokenMemoryCollector : SubCollector Nat :=
  { Describe := [memoryDesc]
    Collect := fun n =>
      (MustNewConstMetric memoryDesc (n : ℚ) [GoString.utf8 "dimm0", GoString.utf8 "bank0"]).map
        (fun sample => ([sample], n + 1)) }

/-- An orchestrator in the Down state with two registered sub-collectors. -/
def downCollector : RedfishCollector Nat :=
  { redfishClient := ⟨GoString.utf8 "https://bmc", ""⟩
    collectors := [("Memory", countingMemoryCollector "redfish" ⟨GoString.utf8 "https://bmc", ""⟩),
                   ("Manager", countingMemoryCollector "redfish" ⟨GoString.utf8 "https://bmc", ""⟩)]
    redfishUp := NewGauge namespace_ "" "up" "redfish up"
    redfishUpValue := 0 }

/-- The same orchestrator in the Up state. -/
def upCollector : RedfishCollector Nat := { downCollector with redfishUpValue := 1 }

/-- An orchestrator in the Up state whose second sub-collector panics. -/
def upCollectorBroken : RedfishCollector Nat :=
  { upCollector with
    collectors := [("Memory", countingMemoryCollector "redfish" ⟨GoString.utf8 "https://bmc", ""⟩),
                   ("Manager", brokenMemoryCollector)] }

/-- The package variables after `NewRedfishCollector` was given the host `"bmc\xff"`,
the bytes 62 6d 63 ff, which are not valid UTF-8. -/
def badHost : Globals := ⟨GoString.invalid [0x62, 0x6d, 0x63, 0xff]⟩

/-- The samples one call of `ManagerCollector.Collect` sends, for the collector built
by `NewManagerCollector` over a client whose manager listing returns `managers`. -/
def samplesOf (f : StateMapping) (ns : String)
    (it : Nat → Nat → Iteration (String × List LogEntry)) (managers : List Manager) :
    Option (List Sample) :=
  (ManagerCollector.Collect f (NewManagerCollector ns ⟨⟨.ok managers⟩⟩) it).map Prod.fst

/-- The visiting orders of the managers from the `k`-th on. -/
def shift (it : Nat → Nat → Iteration (String × List LogEntry)) (k : Nat) :
    Nat → Nat → Iteration (String × List LogEntry) :=
  fun i j => it (i + k) j

/-- The visiting orders of the log services from the `k`-th on, of every manager. -/
def shiftInner (it : Nat → Nat → Iteration (String × List LogEntry)) (k : Nat) :
    Nat → Nat → Iteration (String × List LogEntry) :=
  fun i j => it i (j + k)

/-- The descriptor registered under `manager_health_state`, written out. -/
def manager_health_state_desc : Desc :=
  ⟨"redfish_manager_health_state", "manager health,1(OK),2(Warning),3(Critical)",
    ["manager_id", "name", "model", "type"]⟩

/-- The descriptor registered under `manager_state`, written out. -/
def manager_state_desc : Desc :=
  ⟨"redfish_manager_state",
    "manager state,1(Enabled),2(Disabled),3(StandbyOffinline),4(StandbySpare),5(InTest),6(Starting),7(Absent),8(UnavailableOffline),9(Deferring),10(Quiesced),11(Updating)",
    ["manager_id", "name", "model", "type"]⟩

/-- The descriptor registered under `manager_power_state`, written out. -/
def manager_power_state_desc : Desc :=
  ⟨"redfish_manager_power_state", "manager power state",
    ["manager_id", "name", "model", "type"]⟩

/-- The descriptor registered under `entry_count`, written out. -/
def entry_count_desc : Desc :=
  ⟨"redfish_logservices_entry_count", "Number of log messages", ["name", "severity"]⟩

/-- Spec-side reading of step 2 of the manager algorithm: one sample per status field
whose mapping is valid, in the order health, state, power, each with the identity labels
of the manager. -/
def expectedStatus (f : StateMapping) (manager : Manager) : List Sample :=
  (if (f.parseCommonStatusHealth manager.Status.Health).2 then
      [⟨manager_health_state_desc, (f.parseCommonStatusHealth manager.Status.Health).1,
        [manager.ID, manager.Name, manager.Model, manager.ManagerType]⟩]
    else [])
  ++ (if (f.parseCommonStatusState manager.Status.State).2 then
      [⟨manager_state_desc, (f.parseCommonStatusState manager.Status.State).1,
        [manager.ID, manager.Name, manager.Model, manager.ManagerType]⟩]
    else [])
  ++ (if (f.parseCommonPowerState manager.PowerState).2 then
      [⟨manager_power_state_desc, (f.parseCommonPowerState manager.PowerState).1,
        [manager.ID, manager.Name, manager.Model, manager.ManagerType]⟩]
    else [])

/-- Spec-side reading of step 5: the sample of log service `name` for severity `s`,
counting the entries of `entries` with that severity. -/
def expectedCount (name : String) (entries : List LogEntry) (s : String) : Sample :=
  ⟨entry_count_desc, ((entries.filter (fun e => decide (e.Severity = s))).length : ℚ), [name, s]⟩

/-- The concatenation of `g i x` over the elements `x` of a list with their indices,
counted from `i`. -/
def concatFrom {α : Type} (g : Nat → α → List Sample) : Nat → List α → List Sample
  | _, [] => []
  | i, x :: xs => g i x ++ concatFrom g (i + 1) xs

/-- The samples of one log service, given the visiting order of its severity map. -/
def logServiceOut (it : Iteration (String × List LogEntry)) (logService : LogService) :
    List Sample :=
  match logService.Entries with
  | .error _ => []
  | .ok logEntries =>
    (it.order (entryMapOf logEntries)).map
      (fun kv => ⟨entry_count_desc, (kv.2.length : ℚ), [logService.Name, kv.1]⟩)

/-- The samples of the log services of the `i`-th manager. -/
def managerLogsOut (it : Nat → Nat → Iteration (String × List LogEntry)) (i : Nat)
    (manager : Manager) : List Sample :=
  match manager.LogServices with
  | .error _ => []
  | .ok logServices => concatFrom (fun j logService => logServiceOut (it i j) logService) 0 logServices

/-- The samples of a list of managers whose first has index `i`. -/
def managersOut (f : StateMapping) (it : Nat → Nat → Iteration (String × List LogEntry))
    (i : Nat) (managers : List Manager) : List Sample :=
  concatFrom (fun i manager => expectedStatus f manager ++ managerLogsOut it i manager) i managers

/-- A state mapping with the documented codes of the health, state and power tables
that the fixtures below use. -/
def sampleMapping : StateMapping :=
  { parseCommonStatusHealth := fun h =>
      if h = "OK" then (1, true) else if h = "Warning" then (2, true)
      else if h = "Critical" then (3, true) else (0, false)
    parseCommonStatusState := fun st =>
      if st = "Enabled" then (1, true) else if st = "Disabled" then (2, true) else (0, false)
    parseCommonPowerState := fun p =>
      if p = "On" then (1, true) else if p = "Off" then (2, true) else (0, false) }

/-- The log service "SEL" with entries of severities Critical, Critical, Warning. -/
def sel : LogService :=
  ⟨"SEL", .ok [⟨"1", "Critical"⟩, ⟨"2", "Critical"⟩, ⟨"3", "Warning"⟩]⟩

/-- A manager with health "OK", state "Enabled", power state "On" and the log service
"SEL". -/
def bmc : Manager :=
  { ID := "1", Name := "Manager", Model := "iDRAC", ManagerType := "BMC", PowerState := "On"
    Status := ⟨"Enabled", "OK"⟩, LogServices := .ok [sel] }

/-- The visiting order that keeps every severity map as stored. -/
def storedOrder : Nat → Nat → Iteration (String × List LogEntry) :=
  fun _ _ => Iteration.stored _

/-- The visiting order that reverses every severity map. -/
def backwardsOrder : Nat → Nat → Iteration (String × List LogEntry) :=
  fun _ _ => Iteration.backwards _

/-- The label values of the `entry_count` samples among `out`, in order. -/
def entryCountLabels (out : List Sample) : List (List String) :=
  (out.filter (fun x => decide (x.desc = entry_count_desc))).map (·.labelValues)

/-- A second manager, whose log service is also called "SEL". -/
def bmc2 : Manager :=
  { ID := "2", Name := "Manager", Model := "iDRAC", ManagerType := "BMC", PowerState := "On"
    Status := ⟨"Enabled", "OK"⟩, LogServices := .ok [⟨"SEL", .ok [⟨"9", "Critical"⟩]⟩] }

/-- A third manager, whose log service is called "Lclog". -/
def bmc3 : Manager :=
  { ID := "3", Name := "Manager", Model := "iDRAC", ManagerType := "BMC", PowerState := "On"
    Status := ⟨"Enabled", "OK"⟩, LogServices := .ok [⟨"Lclog", .ok [⟨"9", "Critical"⟩]⟩] }

/-! ## Theorems -/

/-- The loop over the registry appends the outputs in turn to the channel, records the
keys and threads the state; it panics when a call in turn does. -/
theorem collectAll_eq {σ : Type} (cs : List (String × SubCollector σ)) (ch : List Sample)
    (invoked : List String) (s : σ) :
    collectAll cs ch invoked s
      = (outputsInTurn cs s).map
          (fun res => (ch ++ res.1.flatten, invoked ++ cs.map Prod.fst, res.2)) := by
  have hnone : ∀ cs : List (String × SubCollector σ),
      cs.foldl
        (fun (acc : Option (List Sample × List String × σ)) c =>
          match acc with
          | none => none
          | some (ch, invoked, s) =>
            match c.2.Collect s with
            | none => none
            | some (sent, s1) => some (ch ++ sent, invoked ++ [c.1], s1))
        none = none := by
    intro cs
    induction cs with
    | nil => rfl
    | cons c cs ih => exact ih
  unfold collectAll
  induction cs generalizing ch invoked s with
  | nil => simp [outputsInTurn]
  | cons c cs ih =>
    simp only [List.foldl_cons, outputsInTurn]
    cases hc : c.2.Collect s with
    | none => simp only [hnone]; rfl
    | some res =>
      obtain ⟨sent, s1⟩ := res
      simp only [ih]
      cases outputsInTurn cs s1 with
      | none => rfl
      | some r => simp

/-- The number of outputs in turn is the number of sub-collectors. -/
theorem outputsInTurn_length {σ : Type} (cs : List (String × SubCollector σ)) (s : σ)
    (outs : List (List Sample)) (s1 : σ) (h : outputsInTurn cs s = some (outs, s1)) :
    outs.length = cs.length := by
  induction cs generalizing s outs s1 with
  | nil =>
    simp only [outputsInTurn, Option.some.injEq, Prod.mk.injEq] at h
    rw [← h.1]
    rfl
  | cons c cs ih =>
    simp only [outputsInTurn] at h
    cases hc : c.2.Collect s with
    | none => rw [hc] at h; simp at h
    | some res =>
      obtain ⟨sent, s2⟩ := res
      rw [hc] at h
      simp only at h
      cases ho : outputsInTurn cs s2 with
      | none => rw [ho] at h; simp at h
      | some r =>
        obtain ⟨outs1, s3⟩ := r
        rw [ho] at h
        simp only [Option.some.injEq, Prod.mk.injEq] at h
        rw [← h.1, List.length_cons, List.length_cons, ih s2 outs1 s3 ho]

/-- The duration sample is built exactly when the element of `BaseLabelValues` is valid
UTF-8: the slice has one element and the descriptor one label. -/
theorem duration_metric (g : Globals) (elapsed : ℚ) :
    MustNewConstMetric totalScrapeDurationDesc elapsed g.BaseLabelValues
      = g.elem0.text.map (fun host => ⟨totalScrapeDurationDesc, elapsed, [host]⟩) := by
  unfold MustNewConstMetric Globals.BaseLabelValues validLabelValues
  cases g.elem0.text <;> rfl

/-- C1 as stated fails: with liveness 0 and the host `"bmc\xff"` in `BaseLabelValues`,
the call of `RedfishCollector.Collect` panics where it builds the duration sample, so
it does not send the two samples. -/
theorem Collect_down_panics_on_invalid_host :
    downCollector.redfishUpValue = 0 ∧
    RedfishCollector.Collect badHost downCollector (Iteration.stored _) 2 7 = none := by
  exact ⟨rfl, rfl⟩

/-- C1, amended: with liveness 0 and a host in `BaseLabelValues` that is valid UTF-8, one
call of `RedfishCollector.Collect` returns having sent exactly the up gauge with value 0
and then the duration sample labelled with that host, with no sub-collector called and
the state the sub-collectors share untouched. -/
theorem Collect_down_sends_up_and_duration {σ : Type} (g : Globals) (r : RedfishCollector σ)
    (it : Iteration (String × SubCollector σ)) (elapsed : ℚ) (s : σ) (host : String)
    (h : r.redfishUpValue = 0) (hg : g.elem0 = GoString.utf8 host) :
    RedfishCollector.Collect g r it elapsed s
      = some { ch := [⟨r.redfishUp.desc, 0, []⟩, ⟨totalScrapeDurationDesc, elapsed, [host]⟩]
               redfishUp := ⟨r.redfishUp.desc, 0⟩
               invoked := []
               state := s } := by
  have h1 : ¬ r.redfishUpValue = 1 := by rw [h]; norm_num
  simp [RedfishCollector.Collect, duration_metric, h1, Gauge.Set, Gauge.sample, h, hg,
    GoString.text]

/-- C1 amended, at an orchestrator in the Down state with two registered
sub-collectors. -/
theorem Collect_down_sends_up_and_duration_witness :
    (downCollector.redfishUpValue = 0 ∧
      (⟨GoString.utf8 "bmc"⟩ : Globals).elem0 = GoString.utf8 "bmc") ∧
    RedfishCollector.Collect ⟨GoString.utf8 "bmc"⟩ downCollector (Iteration.stored _) (1 / 4) 7
      = some { ch := [⟨downCollector.redfishUp.desc, 0, []⟩,
                      ⟨totalScrapeDurationDesc, 1 / 4, ["bmc"]⟩]
               redfishUp := ⟨downCollector.redfishUp.desc, 0⟩
               invoked := []
               state := 7 } :=
  ⟨⟨rfl, rfl⟩,
   Collect_down_sends_up_and_duration ⟨GoString.utf8 "bmc"⟩ downCollector (Iteration.stored _)
     (1 / 4) 7 "bmc" rfl rfl⟩

/-- C2 as stated fails: with liveness 1, the call of `RedfishCollector.Collect` panics
when a registered sub-collector panics, and also, with sub-collectors that return, when
the host in `BaseLabelValues` is `"bmc\xff"`; in both cases the duration sample is not
sent. -/
theorem Collect_up_panics :
    (upCollectorBroken.redfishUpValue = 1 ∧
      RedfishCollector.Collect ⟨GoString.utf8 "bmc"⟩ upCollectorBroken (Iteration.stored _) 2 7
        = none) ∧
    (upCollector.redfishUpValue = 1 ∧
      outputsInTurn ((Iteration.stored _).order upCollector.collectors) 7
        = some ([[⟨memoryDesc, 7, ["dimm0"]⟩], [⟨memoryDesc, 8, ["dimm0"]⟩]], 9) ∧
      RedfishCollector.Collect badHost upCollector (Iteration.stored _) 2 7 = none) := by
  exact ⟨⟨rfl, rfl⟩, rfl, by decide, rfl⟩

/-- C2, amended: with liveness 1, when the calls of the sub-collectors made in the order
of the `range` all return (none panics), with outputs `outs`, and the host in
`BaseLabelValues` is valid UTF-8, one call of `RedfishCollector.Collect` returns having
sent the up gauge with value 1, then the whole output of every registered sub-collector,
each called exactly once in the order of the `range` (a rearrangement of the registry),
then the duration sample labelled with that host. -/
theorem Collect_up_forwards_all {σ : Type} (g : Globals) (r : RedfishCollector σ)
    (it : Iteration (String × SubCollector σ)) (elapsed : ℚ) (s : σ) (host : String)
    (outs : List (List Sample)) (s1 : σ)
    (h : r.redfishUpValue = 1) (hg : g.elem0 = GoString.utf8 host)
    (hret : outputsInTurn (it.order r.collectors) s = some (outs, s1)) :
    (it.order r.collectors).Perm r.collectors ∧
    outs.length = r.collectors.length ∧
    RedfishCollector.Collect g r it elapsed s
      = some { ch := [⟨r.redfishUp.desc, 1, []⟩] ++ outs.flatten
                       ++ [⟨totalScrapeDurationDesc, elapsed, [host]⟩]
               redfishUp := ⟨r.redfishUp.desc, 1⟩
               invoked := (it.order r.collectors).map Prod.fst
               state := s1 } := by
  refine ⟨it.perm _, ?_, ?_⟩
  · rw [outputsInTurn_length _ _ _ _ hret, (it.perm r.collectors).length_eq]
  · simp [RedfishCollector.Collect, duration_metric, h, hg, Gauge.Set, Gauge.sample,
      collectAll_eq, hret, GoString.text]

/-- C2 amended, at an orchestrator in the Up state with two registered sub-collectors,
visited last to first. -/
theorem Collect_up_forwards_all_witness :
    (upCollector.redfishUpValue = 1 ∧
      (⟨GoString.utf8 "bmc"⟩ : Globals).elem0 = GoString.utf8 "bmc" ∧
      outputsInTurn ((Iteration.backwards _).order upCollector.collectors) 7
        = some ([[⟨memoryDesc, 7, ["dimm0"]⟩], [⟨memoryDesc, 8, ["dimm0"]⟩]], 9)) ∧
    (((Iteration.backwards _).order upCollector.collectors).Perm upCollector.collectors ∧
      [[(⟨memoryDesc, 7, ["dimm0"]⟩ : Sample)], [⟨memoryDesc, 8, ["dimm0"]⟩]].length
        = upCollector.collectors.length ∧
      RedfishCollector.Collect ⟨GoString.utf8 "bmc"⟩ upCollector (Iteration.backwards _) 3 7
        = some { ch := [⟨upCollector.redfishUp.desc, 1, []⟩]
                         ++ [[(⟨memoryDesc, 7, ["dimm0"]⟩ : Sample)],
                             [⟨memoryDesc, 8, ["dimm0"]⟩]].flatten
                         ++ [⟨totalScrapeDurationDesc, 3, ["bmc"]⟩]
                 redfishUp := ⟨upCollector.redfishUp.desc, 1⟩
                 invoked := ((Iteration.backwards _).order upCollector.collectors).map Prod.fst
                 state := 9 }) ∧
    (RedfishCollector.Collect ⟨GoString.utf8 "bmc"⟩ upCollector (Iteration.backwards _) 3 7).map
        (fun res => (res.ch, res.invoked, res.state))
      = some ([⟨NewDesc "redfish_up" "redfish up" [], 1, []⟩,
               ⟨memoryDesc, 7, ["dimm0"]⟩, ⟨memoryDesc, 8, ["dimm0"]⟩,
               ⟨totalScrapeDurationDesc, 3, ["bmc"]⟩], ["Manager", "Memory"], 9) := by
  have hret : outputsInTurn ((Iteration.backwards _).order upCollector.collectors) 7
      = some ([[⟨memoryDesc, 7, ["dimm0"]⟩], [⟨memoryDesc, 8, ["dimm0"]⟩]], 9) := by decide
  exact ⟨⟨rfl, rfl, hret⟩,
    Collect_up_forwards_all ⟨GoString.utf8 "bmc"⟩ upCollector (Iteration.backwards _) 3 7 "bmc"
      _ _ rfl rfl hret, by decide⟩

/-- The loop of `RedfishCollector.Describe` sends the descriptors of the sub-collectors in
the order visited. -/
theorem describe_all {σ : Type} (cs : List (String × SubCollector σ)) (ch : List Desc) :
    cs.foldl (fun ch c => ch ++ c.2.Describe) ch = ch ++ cs.flatMap (·.2.Describe) := by
  induction cs generalizing ch with
  | nil => simp
  | cons c cs ih => simp [ih]

/-- C7: `RedfishCollector.Describe` sends the descriptors of the registered
sub-collectors and nothing else; for the orchestrator `NewRedfishCollector` builds at a
reachable endpoint that is the one descriptor of its memory collector, while
`RedfishCollector.Collect` sends samples against the liveness gauge `redfish_up` and
against `redfish_exporter_collector_duration_seconds`, neither of which `Describe` sent. -/
theorem Describe_omits_up_and_duration :
    (∀ (r : RedfishCollector Nat) (it : Iteration (String × SubCollector Nat)),
      RedfishCollector.Describe r it = (it.order r.collectors).flatMap (·.2.Describe)) ∧
    ∃ (r : RedfishCollector Nat) (g : Globals) (res : Scrape Nat),
      NewRedfishCollector reachable countingMemoryCollector Globals.init "bmc" "root" "secret"
        = Outcome.returned (r, g) ∧
      RedfishCollector.Describe r (Iteration.stored _) = [memoryDesc] ∧
      RedfishCollector.Collect g r (Iteration.stored _) 2 0 = some res ∧
      res.ch.map (fun x => x.desc.fqName)
        = ["redfish_up", "redfish_memory_health_state",
           "redfish_exporter_collector_duration_seconds"] ∧
      (∃ x ∈ res.ch, x.desc.fqName = "redfish_up" ∧
        x.desc ∉ RedfishCollector.Describe r (Iteration.stored _)) ∧
      (∃ x ∈ res.ch, x.desc.fqName = "redfish_exporter_collector_duration_seconds" ∧
        x.desc ∉ RedfishCollector.Describe r (Iteration.stored _)) := by
  refine ⟨?_, _, _, _, rfl, rfl, rfl, by decide, ?_, ?_⟩
  · intro r it
    unfold RedfishCollector.Describe
    rw [describe_all, List.nil_append]
  · exact ⟨⟨NewDesc "redfish_up" "redfish up" [], 1, []⟩, by decide, by decide, by decide⟩
  · exact ⟨⟨totalScrapeDurationDesc, 2, ["bmc"]⟩, by decide, by decide, by decide⟩

/-- C8: whenever a `Collect` returns, its duration sample carries one label value, the
element of the package variable `BaseLabelValues` at the time of the call; so when an
orchestrator is built for host "a" and then another one for host "b", the duration
sample of a later `Collect` of the first carries the label value "b". -/
theorem duration_label_follows_last_constructor :
    (∀ (g : Globals) (r : RedfishCollector Nat) (it : Iteration (String × SubCollector Nat))
        (elapsed : ℚ) (s : Nat) (res : Scrape Nat),
      RedfishCollector.Collect g r it elapsed s = some res →
      ∃ host, g.elem0 = GoString.utf8 host ∧
        res.ch.getLast? = some ⟨totalScrapeDurationDesc, elapsed, [host]⟩) ∧
    ∃ (c1 c2 : RedfishCollector Nat) (g1 g2 : Globals) (res : Scrape Nat),
      NewRedfishCollector reachable countingMemoryCollector Globals.init "a" "root" "secret"
        = Outcome.returned (c1, g1) ∧
      NewRedfishCollector reachable countingMemoryCollector g1 "b" "root" "secret"
        = Outcome.returned (c2, g2) ∧
      RedfishCollector.Collect g2 c1 (Iteration.stored _) 2 0 = some res ∧
      res.ch.getLast? = some ⟨totalScrapeDurationDesc, 2, ["b"]⟩ := by
  refine ⟨?_, _, _, _, _, _, rfl, rfl, rfl, by decide⟩
  intro g r it elapsed s res h
  unfold RedfishCollector.Collect at h
  rw [duration_metric] at h
  simp only at h
  split at h
  · exact absurd h (by simp)
  · rename_i mid _
    cases hg : g.elem0 with
    | invalid bytes =>
      rw [hg] at h
      simp [GoString.text] at h
    | utf8 host =>
      rw [hg] at h
      simp only [GoString.text, Option.map_some', Option.some.injEq] at h
      refine ⟨host, rfl, ?_⟩
      rw [← h]
      simp

/-- C9: when the creation of the API client, the fetch of the service root or the
creation of the session fails, `newRedfishClient` does not return: the process exits with
status 1, and so does `NewRedfishCollector`; when all three succeed it returns liveness 1;
for no endpoint does it return liveness 0. -/
theorem bootstrap_failure_exits :
    newRedfishClient unreachable "bmc" "root" "secret" = Outcome.exited 1 ∧
    newRedfishClient noServiceRoot "bmc" "root" "secret" = Outcome.exited 1 ∧
    newRedfishClient unauthorized "bmc" "root" "secret" = Outcome.exited 1 ∧
    NewRedfishCollector unreachable countingMemoryCollector Globals.init "bmc" "root" "secret"
      = Outcome.exited 1 ∧
    newRedfishClient reachable "bmc" "root" "secret"
      = Outcome.returned (⟨"https://bmc", "token"⟩, 1) ∧
    (∀ (remote : Endpoint) (host : GoString) (username password : String) (client : ApiClient),
      newRedfishClient remote host username password ≠ Outcome.returned (client, 0)) := by
  refine ⟨rfl, rfl, rfl, rfl, by decide, ?_⟩
  intro remote host username password client h
  unfold newRedfishClient logFatalf at h
  simp only [Outcome.andThen] at h
  split at h
  · exact Outcome.noConfusion h
  · split at h
    · exact Outcome.noConfusion h
    · split at h
      · exact Outcome.noConfusion h
      · injection h with h
        injection h with _ h
        exact absurd h (by norm_num)

/-! ### The manager collector: the loops in closed form -/

theorem rangeSlice_eq_concatFrom {α : Type} (body : Nat → α → Option (List Sample))
    (g : Nat → α → List Sample) (h : ∀ i x, body i x = some (g i x)) (i : Nat) (xs : List α) :
    rangeSlice body i xs = some (concatFrom g i xs) := by
  induction xs generalizing i with
  | nil => rfl
  | cons x xs ih => simp [rangeSlice, concatFrom, h, ih]

theorem concatFrom_append {α : Type} (g : Nat → α → List Sample) (i : Nat) (xs ys : List α) :
    concatFrom g i (xs ++ ys) = concatFrom g i xs ++ concatFrom g (i + xs.length) ys := by
  induction xs generalizing i with
  | nil => simp [concatFrom]
  | cons x xs ih =>
    have e : i + 1 + xs.length = i + (xs.length + 1) := by omega
    show g i x ++ concatFrom g (i + 1) (xs ++ ys) = _
    rw [ih (i + 1), e]
    simp [concatFrom]

theorem concatFrom_shift {α : Type} (g : Nat → α → List Sample) (i k : Nat) (xs : List α) :
    concatFrom g (i + k) xs = concatFrom (fun i => g (i + k)) i xs := by
  induction xs generalizing i with
  | nil => rfl
  | cons x xs ih =>
    simp only [concatFrom]
    rw [← ih (i + 1)]
    rw [Nat.add_right_comm]

theorem send_entry_count (ns : String) (c : APIClient) (v : ℚ) (a b : String) :
    send (((NewManagerCollector ns c).logServiceMetrics.find "entry_count").map (·.desc)) v [a, b]
      = some [⟨entry_count_desc, v, [a, b]⟩] := by
  rfl

theorem logServiceBody_eq (ns : String) (c : APIClient) (it : Iteration (String × List LogEntry))
    (logService : LogService) :
    logServiceBody (NewManagerCollector ns c) it logService = some (logServiceOut it logService) := by
  unfold logServiceBody logServiceOut
  cases logService.Entries with
  | error e => rfl
  | ok logEntries =>
    simp only
    rw [rangeSlice_eq_concatFrom _
      (fun _ (kv : String × List LogEntry) =>
        [⟨entry_count_desc, (kv.2.length : ℚ), [logService.Name, kv.1]⟩])
      (fun _ kv => send_entry_count ns c _ _ _)]
    congr 1
    generalize it.order (entryMapOf logEntries) = l
    generalize (0 : Nat) = i
    induction l generalizing i with
    | nil => rfl
    | cons x xs ih => simp [concatFrom, ih]

theorem managerLogServices_eq (ns : String) (c : APIClient)
    (it : Nat → Nat → Iteration (String × List LogEntry)) (i : Nat) (manager : Manager) :
    managerLogServices (NewManagerCollector ns c) it i manager
      = some (managerLogsOut it i manager) := by
  unfold managerLogServices managerLogsOut
  cases manager.LogServices with
  | error e => rfl
  | ok logServices =>
    exact rangeSlice_eq_concatFrom _ _ (fun j ls => logServiceBody_eq ns c (it i j) ls) 0 logServices

theorem managerStatus_eq (f : StateMapping) (ns : String) (c : APIClient) (manager : Manager) :
    managerStatus f (NewManagerCollector ns c) manager = some (expectedStatus f manager) := by
  have hh : ∀ v (l : List String) (a b x d : String), l = [a, b, x, d] →
      send (((NewManagerCollector ns c).metrics.find "manager_health_state").map (·.desc)) v l
        = some [⟨manager_health_state_desc, v, l⟩] := by
    intro v l a b x d hl; subst hl; rfl
  have hs : ∀ v (l : List String) (a b x d : String), l = [a, b, x, d] →
      send (((NewManagerCollector ns c).metrics.find "manager_state").map (·.desc)) v l
        = some [⟨manager_state_desc, v, l⟩] := by
    intro v l a b x d hl; subst hl; rfl
  have hp : ∀ v (l : List String) (a b x d : String), l = [a, b, x, d] →
      send (((NewManagerCollector ns c).metrics.find "manager_power_state").map (·.desc)) v l
        = some [⟨manager_power_state_desc, v, l⟩] := by
    intro v l a b x d hl; subst hl; rfl
  unfold managerStatus expectedStatus sprintfV
  simp only [hh _ _ _ _ _ _ rfl, hs _ _ _ _ _ _ rfl, hp _ _ _ _ _ _ rfl]
  cases (f.parseCommonStatusHealth manager.Status.Health).2 <;>
    cases (f.parseCommonStatusState manager.Status.State).2 <;>
      cases (f.parseCommonPowerState manager.PowerState).2 <;> rfl

theorem managerBody_eq (f : StateMapping) (ns : String) (c : APIClient)
    (it : Nat → Nat → Iteration (String × List LogEntry)) (i : Nat) (manager : Manager) :
    managerBody f (NewManagerCollector ns c) it i manager
      = some (expectedStatus f manager ++ managerLogsOut it i manager) := by
  simp [managerBody, managerStatus_eq, managerLogServices_eq]

theorem samplesOf_eq (f : StateMapping) (ns : String)
    (it : Nat → Nat → Iteration (String × List LogEntry)) (managers : List Manager) :
    samplesOf f ns it managers = some (managersOut f it 0 managers) := by
  unfold samplesOf ManagerCollector.Collect managersOut
  have h := rangeSlice_eq_concatFrom _ _
    (fun i mgr => managerBody_eq f ns ⟨⟨.ok managers⟩⟩ it i mgr) 0 managers
  simp only [NewManagerCollector] at h ⊢
  rw [h]
  rfl

/-! ### The severity map -/

theorem GoMap.get_of_mem {κ ν : Type} [DecidableEq κ] (m : GoMap κ ν) (k : κ) (v zero : ν)
    (hnd : (m.map Prod.fst).Nodup) (hmem : (k, v) ∈ m) : GoMap.get m k zero = v := by
  induction m with
  | nil => simp at hmem
  | cons p rest ih =>
    obtain ⟨k0, v0⟩ := p
    simp only [List.map_cons, List.nodup_cons] at hnd
    simp only [GoMap.get]
    rcases List.mem_cons.1 hmem with heq | hin
    · simp only [Prod.mk.injEq] at heq
      simp [heq.1, heq.2]
    · have hne : k0 ≠ k := by
        intro h
        apply hnd.1
        rw [h]
        exact List.mem_map.2 ⟨(k, v), hin, rfl⟩
      simp only [hne, if_false]
      exact ih hnd.2 hin

theorem GoMap.get_of_not_mem {κ ν : Type} [DecidableEq κ] (m : GoMap κ ν) (k : κ) (zero : ν)
    (h : k ∉ m.map Prod.fst) : GoMap.get m k zero = zero := by
  induction m with
  | nil => rfl
  | cons p rest ih =>
    obtain ⟨k0, v0⟩ := p
    simp only [List.map_cons, List.mem_cons, not_or] at h
    simp only [GoMap.get]
    have hne : k0 ≠ k := fun e => h.1 e.symm
    simp only [hne, if_false]
    exact ih h.2

theorem GoMap.keys_set {κ ν : Type} [DecidableEq κ] (m : GoMap κ ν) (k : κ) (v : ν) :
    (GoMap.set m k v).map Prod.fst
      = if k ∈ m.map Prod.fst then m.map Prod.fst else m.map Prod.fst ++ [k] := by
  induction m with
  | nil => simp [GoMap.set]
  | cons p rest ih =>
    obtain ⟨k0, v0⟩ := p
    by_cases h : k0 = k
    · simp [GoMap.set, h]
    · have h2 : ¬ k = k0 := fun e => h e.symm
      simp only [GoMap.set, h, if_false, List.map_cons, ih, List.mem_cons, h2, false_or]
      split <;> simp

theorem GoMap.mem_set {κ ν : Type} [DecidableEq κ] (m : GoMap κ ν) (k k1 : κ) (v v1 : ν)
    (hnd : (m.map Prod.fst).Nodup) (hmem : (k1, v1) ∈ GoMap.set m k v) :
    (k1 = k ∧ v1 = v) ∨ (k1 ≠ k ∧ (k1, v1) ∈ m) := by
  induction m with
  | nil =>
    simp only [GoMap.set, List.mem_singleton, Prod.mk.injEq] at hmem
    exact Or.inl hmem
  | cons p rest ih =>
    obtain ⟨k0, v0⟩ := p
    simp only [List.map_cons, List.nodup_cons] at hnd
    by_cases h : k0 = k
    · simp only [GoMap.set, h, if_true, List.mem_cons, Prod.mk.injEq] at hmem
      rcases hmem with heq | hin
      · exact Or.inl heq
      · right
        refine ⟨?_, List.mem_cons_of_mem _ hin⟩
        intro e
        apply hnd.1
        rw [h, ← e]
        exact List.mem_map.2 ⟨(k1, v1), hin, rfl⟩
    · simp only [GoMap.set, h, if_false, List.mem_cons, Prod.mk.injEq] at hmem
      rcases hmem with heq | hin
      · right
        refine ⟨?_, ?_⟩
        · rw [heq.1]; exact h
        · rw [heq.1, heq.2]; exact List.mem_cons_self _ _
      · rcases ih hnd.2 hin with hl | hr
        · exact Or.inl hl
        · exact Or.inr ⟨hr.1, List.mem_cons_of_mem _ hr.2⟩

theorem entryMapOf_snoc (logEntries : List LogEntry) (entry : LogEntry) :
    entryMapOf (logEntries ++ [entry])
      = GoMap.set (entryMapOf logEntries) entry.Severity
          (GoMap.get (entryMapOf logEntries) entry.Severity [] ++ [entry]) := by
  simp [entryMapOf, List.foldl_append]

/-- The severity map has distinct keys, holds under each key the entries of that
severity, and has a key exactly for the severities that occur. -/
theorem entryMapOf_grouped (logEntries : List LogEntry) :
    ((entryMapOf logEntries).map Prod.fst).Nodup ∧
    (∀ k v, (k, v) ∈ entryMapOf logEntries →
      v = logEntries.filter (fun e => decide (e.Severity = k))) ∧
    (∀ k, k ∈ (entryMapOf logEntries).map Prod.fst ↔ k ∈ logEntries.map (·.Severity)) := by
  induction logEntries using List.reverseRecOn with
  | nil => simp [entryMapOf]
  | append_singleton L e ih =>
    obtain ⟨hnd, hgrp, hkeys⟩ := ih
    rw [entryMapOf_snoc]
    have hget : GoMap.get (entryMapOf L) e.Severity []
        = L.filter (fun x => decide (x.Severity = e.Severity)) := by
      by_cases hk : e.Severity ∈ (entryMapOf L).map Prod.fst
      · obtain ⟨⟨k, v⟩, hin, hfst⟩ := List.mem_map.1 hk
        simp only at hfst
        subst hfst
        rw [GoMap.get_of_mem _ _ v [] hnd hin]
        exact hgrp _ _ hin
      · rw [GoMap.get_of_not_mem _ _ _ hk]
        symm
        rw [List.filter_eq_nil_iff]
        intro x hx
        simp only [decide_eq_true_eq]
        intro hsev
        apply hk
        rw [hkeys, ← hsev]
        exact List.mem_map.2 ⟨x, hx, rfl⟩
    refine ⟨?_, ?_, ?_⟩
    · rw [GoMap.keys_set]
      split
      · exact hnd
      · rename_i hk
        rw [List.nodup_append]
        refine ⟨hnd, List.nodup_singleton _, ?_⟩
        intro a ha hb
        rw [List.mem_singleton] at hb
        exact hk (hb ▸ ha)
    · intro k v hin
      rcases GoMap.mem_set _ _ _ _ _ hnd hin with ⟨hk, hv⟩ | ⟨hk, hold⟩
      · rw [hv, hget, hk]
        simp [List.filter_append]
      · rw [hgrp _ _ hold]
        have : ¬ e.Severity = k := fun h => hk h.symm
        simp [List.filter_append, List.filter_cons, this]
    · intro k
      rw [GoMap.keys_set]
      have hk := hkeys k
      split
      · rename_i hin
        simp only [List.map_append, List.map_cons, List.map_nil, List.mem_append,
          List.mem_singleton]
        constructor
        · intro h; exact Or.inl (hk.1 h)
        · rintro (h | h)
          · exact hk.2 h
          · rw [h]; exact hin
      · simp only [List.map_append, List.map_cons, List.map_nil, List.mem_append,
          List.mem_singleton, hk]

/-- The severity map is, up to the order of its entries, the distinct severities each
with the entries of that severity. -/
theorem entryMapOf_perm (logEntries : List LogEntry) :
    (entryMapOf logEntries).Perm
      ((logEntries.map (·.Severity)).dedup.map
        (fun s => (s, logEntries.filter (fun e => decide (e.Severity = s))))) := by
  obtain ⟨hnd, hgrp, hkeys⟩ := entryMapOf_grouped logEntries
  have h1 : entryMapOf logEntries
      = ((entryMapOf logEntries).map Prod.fst).map
          (fun s => (s, logEntries.filter (fun e => decide (e.Severity = s)))) := by
    rw [List.map_map]
    conv_lhs => rw [← List.map_id (entryMapOf logEntries)]
    apply List.map_congr_left
    intro kv hkv
    obtain ⟨k, v⟩ := kv
    simp only [id, Function.comp, Prod.mk.injEq, true_and]
    exact hgrp k v hkv
  rw [h1]
  apply List.Perm.map
  rw [List.perm_ext_iff_of_nodup hnd (List.nodup_dedup _)]
  intro k
  rw [hkeys, List.mem_dedup]

/-! ### The samples of one log service -/

theorem count_severity (L : List LogEntry) (k : String) :
    (L.map (·.Severity)).count k = (L.filter (fun e => decide (e.Severity = k))).length := by
  induction L with
  | nil => rfl
  | cons e L ih =>
    by_cases h : e.Severity = k
    · simp [List.count_cons, List.filter_cons, h, ih]
    · simp [List.count_cons, List.filter_cons, h, ih]

theorem logServiceOut_perm (it : Iteration (String × List LogEntry)) (logService : LogService)
    (L : List LogEntry) (hL : logService.Entries = .ok L) :
    (logServiceOut it logService).Perm
      ((L.map (·.Severity)).dedup.map (expectedCount logService.Name L)) := by
  unfold logServiceOut
  rw [hL]
  simp only
  refine ((it.perm (entryMapOf L)).map _).trans ?_
  have hgrp := (entryMapOf_grouped L).2.1
  have h1 : (entryMapOf L).map
        (fun kv => (⟨entry_count_desc, (kv.2.length : ℚ), [logService.Name, kv.1]⟩ : Sample))
      = (entryMapOf L).map (fun kv => expectedCount logService.Name L kv.1) := by
    apply List.map_congr_left
    intro kv hkv
    obtain ⟨k, v⟩ := kv
    simp only [expectedCount]
    rw [hgrp k v hkv]
  rw [h1]
  have h2 := (entryMapOf_perm L).map (fun kv => expectedCount logService.Name L kv.1)
  rw [List.map_map] at h2
  exact h2

theorem expectedCount_sum (name : String) (L : List LogEntry) :
    (((L.map (·.Severity)).dedup.map (expectedCount name L)).map (·.value)).sum
      = (L.length : ℚ) := by
  have h := List.sum_map_count_dedup_eq_length (L.map (·.Severity))
  rw [List.length_map] at h
  rw [← h, Nat.cast_list_sum, List.map_map, List.map_map]
  congr 1
  apply List.map_congr_left
  intro k _
  simp [expectedCount, count_severity]

theorem logServiceOut_desc (it : Iteration (String × List LogEntry)) (logService : LogService) :
    ∀ x ∈ logServiceOut it logService, x.desc = entry_count_desc := by
  intro x hx
  unfold logServiceOut at hx
  cases h : logService.Entries with
  | error e => rw [h] at hx; simp at hx
  | ok L =>
    rw [h] at hx
    obtain ⟨kv, _, rfl⟩ := List.mem_map.1 hx
    rfl

theorem managersOut_split (f : StateMapping) (it : Nat → Nat → Iteration (String × List LogEntry))
    (i : Nat) (pre post : List Manager) (manager : Manager) :
    managersOut f it i (pre ++ manager :: post)
      = managersOut f it i pre
        ++ (expectedStatus f manager ++ managerLogsOut it (i + pre.length) manager)
        ++ managersOut f it (i + pre.length + 1) post := by
  simp [managersOut, concatFrom_append, concatFrom]

theorem managerLogsOut_split (it : Nat → Nat → Iteration (String × List LogEntry)) (i : Nat)
    (manager : Manager) (lpre lpost : List LogService) (logService : LogService)
    (h : manager.LogServices = .ok (lpre ++ logService :: lpost)) :
    managerLogsOut it i manager
      = concatFrom (fun j ls => logServiceOut (it i j) ls) 0 lpre
        ++ logServiceOut (it i lpre.length) logService
        ++ concatFrom (fun j ls => logServiceOut (it i j) ls) (lpre.length + 1) lpost := by
  simp [managerLogsOut, h, concatFrom_append, concatFrom]

theorem managersOut_shift (f : StateMapping)
    (it : Nat → Nat → Iteration (String × List LogEntry)) (k : Nat) (managers : List Manager) :
    managersOut f it k managers = managersOut f (shift it k) 0 managers := by
  unfold managersOut
  have h := concatFrom_shift
    (fun i manager => expectedStatus f manager ++ managerLogsOut it i manager) 0 k managers
  rw [Nat.zero_add] at h
  rw [h]
  rfl

theorem managerLogsOut_inner_shift (it : Nat → Nat → Iteration (String × List LogEntry))
    (i k : Nat) (l : List LogService) :
    concatFrom (fun j ls => logServiceOut (it i j) ls) k l
      = concatFrom (fun j ls => logServiceOut (shiftInner it k i j) ls) 0 l := by
  have h := concatFrom_shift (fun j ls => logServiceOut (it i j) ls) 0 k l
  rw [Nat.zero_add] at h
  rw [h]
  rfl

/-- C3: for a log service named `n` whose entry fetch returns the list `L`, the samples
of one call of `ManagerCollector.Collect` are `before ++ out ++ (LB ++ B)`, where `before`
is what a call sends for the inventory cut right before that log service, `before ++ out`
what it sends for the inventory cut right after it, `LB` the samples of the later log
services of the manager and `B` those of the later managers; the run `out` of the log
service is the result of the body of the log-service loop and is, up to order, one
`entry_count` sample per distinct severity `s` of `L`, with label values `[n, s]` and the
number of entries of severity `s` as value; the values sum to the length of `L`. -/
theorem entry_count_per_severity (f : StateMapping) (ns : String)
    (it : Nat → Nat → Iteration (String × List LogEntry)) (pre post : List Manager)
    (manager : Manager) (lpre lpost : List LogService) (logService : LogService)
    (L : List LogEntry)
    (hls : manager.LogServices = .ok (lpre ++ logService :: lpost))
    (hL : logService.Entries = .ok L) :
    ∃ before out LB B : List Sample,
      samplesOf f ns it (pre ++ manager :: post) = some (before ++ out ++ (LB ++ B)) ∧
      samplesOf f ns it (pre ++ [{ manager with LogServices := .ok lpre }]) = some before ∧
      samplesOf f ns it (pre ++ [{ manager with LogServices := .ok (lpre ++ [logService]) }])
        = some (before ++ out) ∧
      (∀ c, managerLogServices (NewManagerCollector ns c) (shiftInner it (lpre.length + 1))
        pre.length { manager with LogServices := .ok lpost } = some LB) ∧
      samplesOf f ns (shift it (pre.length + 1)) post = some B ∧
      (∀ c, logServiceBody (NewManagerCollector ns c) (it pre.length lpre.length) logService
        = some out) ∧
      out.Perm ((L.map (·.Severity)).dedup.map
        (fun s => ⟨entry_count_desc,
          ((L.filter (fun e => decide (e.Severity = s))).length : ℚ), [logService.Name, s]⟩)) ∧
      (out.map (·.value)).sum = (L.length : ℚ) := by
  refine ⟨managersOut f it 0 pre ++ expectedStatus f manager
      ++ concatFrom (fun j ls => logServiceOut (it pre.length j) ls) 0 lpre,
    logServiceOut (it pre.length lpre.length) logService,
    concatFrom (fun j ls => logServiceOut (it pre.length j) ls) (lpre.length + 1) lpost,
    managersOut f it (pre.length + 1) post, ?_, ?_, ?_, ?_, ?_, ?_, ?_, ?_⟩
  · rw [samplesOf_eq, managersOut_split, managerLogsOut_split _ _ _ _ _ _ hls]
    simp
  · rw [samplesOf_eq, managersOut_split]
    simp [managersOut, concatFrom, managerLogsOut, expectedStatus]
  · rw [samplesOf_eq, managersOut_split,
      managerLogsOut_split it _ { manager with LogServices := .ok (lpre ++ [logService]) }
        lpre [] logService rfl]
    simp [managersOut, concatFrom, expectedStatus]
  · intro c
    rw [managerLogServices_eq, managerLogsOut_inner_shift]
    rfl
  · rw [samplesOf_eq, managersOut_shift f it (pre.length + 1)]
  · intro c
    exact logServiceBody_eq ns c _ _
  · exact logServiceOut_perm _ _ L hL
  · rw [((logServiceOut_perm (it pre.length lpre.length) _ L hL).map (·.value)).sum_eq]
    exact expectedCount_sum _ L

set_option maxRecDepth 10000 in
/-- C3, at the log service "SEL" with severities Critical, Critical, Warning of the one
manager of the inventory: after the three status samples the call sends the two samples
("SEL","Critical") = 2 and ("SEL","Warning") = 1 and nothing else, in the stored and in
the reverse order of the map. -/
theorem entry_count_per_severity_witness :
    (bmc.LogServices = .ok ([] ++ sel :: []) ∧
      sel.Entries = .ok [⟨"1", "Critical"⟩, ⟨"2", "Critical"⟩, ⟨"3", "Warning"⟩]) ∧
    (∃ before out LB B : List Sample,
      samplesOf sampleMapping "redfish" storedOrder ([] ++ bmc :: [])
        = some (before ++ out ++ (LB ++ B)) ∧
      samplesOf sampleMapping "redfish" storedOrder
        ([] ++ [{ bmc with LogServices := .ok [] }]) = some before ∧
      samplesOf sampleMapping "redfish" storedOrder
        ([] ++ [{ bmc with LogServices := .ok ([] ++ [sel]) }]) = some (before ++ out) ∧
      (∀ c, managerLogServices (NewManagerCollector "redfish" c)
        (shiftInner storedOrder (([] : List LogService).length + 1))
        ([] : List Manager).length { bmc with LogServices := .ok [] } = some LB) ∧
      samplesOf sampleMapping "redfish" (shift storedOrder (([] : List Manager).length + 1)) []
        = some B ∧
      (∀ c, logServiceBody (NewManagerCollector "redfish" c)
        (storedOrder ([] : List Manager).length ([] : List LogService).length) sel = some out) ∧
      out.Perm
        (([⟨"1", "Critical"⟩, ⟨"2", "Critical"⟩, (⟨"3", "Warning"⟩ : LogEntry)].map
            (·.Severity)).dedup.map
          (fun s => ⟨entry_count_desc,
            (([⟨"1", "Critical"⟩, ⟨"2", "Critical"⟩, (⟨"3", "Warning"⟩ : LogEntry)].filter
              (fun e => decide (e.Severity = s))).length : ℚ), [sel.Name, s]⟩)) ∧
      (out.map (·.value)).sum = (([⟨"1", "Critical"⟩, ⟨"2", "Critical"⟩,
        (⟨"3", "Warning"⟩ : LogEntry)].length : ℕ) : ℚ)) ∧
    samplesOf sampleMapping "redfish" storedOrder [bmc]
      = some [⟨manager_health_state_desc, 1, ["1", "Manager", "iDRAC", "BMC"]⟩,
              ⟨manager_state_desc, 1, ["1", "Manager", "iDRAC", "BMC"]⟩,
              ⟨manager_power_state_desc, 1, ["1", "Manager", "iDRAC", "BMC"]⟩,
              ⟨entry_count_desc, 2, ["SEL", "Critical"]⟩,
              ⟨entry_count_desc, 1, ["SEL", "Warning"]⟩] ∧
    samplesOf sampleMapping "redfish" backwardsOrder [bmc]
      = some [⟨manager_health_state_desc, 1, ["1", "Manager", "iDRAC", "BMC"]⟩,
              ⟨manager_state_desc, 1, ["1", "Manager", "iDRAC", "BMC"]⟩,
              ⟨manager_power_state_desc, 1, ["1", "Manager", "iDRAC", "BMC"]⟩,
              ⟨entry_count_desc, 1, ["SEL", "Warning"]⟩,
              ⟨entry_count_desc, 2, ["SEL", "Critical"]⟩] ∧
    samplesOf sampleMapping "redfish" storedOrder [{ bmc with LogServices := .ok [⟨"SEL", .ok []⟩] }]
      = some [⟨manager_health_state_desc, 1, ["1", "Manager", "iDRAC", "BMC"]⟩,
              ⟨manager_state_desc, 1, ["1", "Manager", "iDRAC", "BMC"]⟩,
              ⟨manager_power_state_desc, 1, ["1", "Manager", "iDRAC", "BMC"]⟩] :=
  ⟨⟨rfl, rfl⟩,
   entry_count_per_severity sampleMapping "redfish" storedOrder [] [] bmc [] [] sel _ rfl rfl,
   by decide, by decide, by decide⟩

/-! ### The samples of one manager -/

theorem managerLogsOut_desc (it : Nat → Nat → Iteration (String × List LogEntry)) (i : Nat)
    (manager : Manager) : ∀ x ∈ managerLogsOut it i manager, x.desc = entry_count_desc := by
  unfold managerLogsOut
  cases manager.LogServices with
  | error e => simp
  | ok l =>
    simp only
    generalize (0 : Nat) = j
    induction l generalizing j with
    | nil => simp [concatFrom]
    | cons ls l ih =>
      intro x hx
      simp only [concatFrom, List.mem_append] at hx
      rcases hx with h | h
      · exact logServiceOut_desc _ _ x h
      · exact ih _ x h

set_option maxRecDepth 10000 in
/-- C5: for every manager of a fetched list, one call of `ManagerCollector.Collect` sends,
right after the samples of the managers before it, the status samples of that manager:
in the order health, state, power, one sample for each field whose mapping is valid and
none for a field whose mapping is not, against the matching descriptor, with the mapped
code as value and the label values ID, Name, Model, ManagerType, in the order of the
label names manager_id, name, model, type of these descriptors; next come only
`entry_count` samples, then the samples of the managers after it. When the three
mappings are valid the status samples are exactly three. -/
theorem status_samples_per_valid_mapping (f : StateMapping) (ns : String)
    (it : Nat → Nat → Iteration (String × List LogEntry)) (pre post : List Manager)
    (manager : Manager) :
    (∃ before logs after : List Sample,
      samplesOf f ns it (pre ++ manager :: post)
        = some (before
            ++ ((if (f.parseCommonStatusHealth manager.Status.Health).2 then
                  [⟨manager_health_state_desc, (f.parseCommonStatusHealth manager.Status.Health).1,
                    [manager.ID, manager.Name, manager.Model, manager.ManagerType]⟩]
                else [])
              ++ (if (f.parseCommonStatusState manager.Status.State).2 then
                  [⟨manager_state_desc, (f.parseCommonStatusState manager.Status.State).1,
                    [manager.ID, manager.Name, manager.Model, manager.ManagerType]⟩]
                else [])
              ++ (if (f.parseCommonPowerState manager.PowerState).2 then
                  [⟨manager_power_state_desc, (f.parseCommonPowerState manager.PowerState).1,
                    [manager.ID, manager.Name, manager.Model, manager.ManagerType]⟩]
                else []))
            ++ logs ++ after) ∧
      samplesOf f ns it pre = some before ∧
      (∀ x ∈ logs, x.desc = entry_count_desc) ∧
      samplesOf f ns (shift it (pre.length + 1)) post = some after) ∧
    (∀ c, managerStatus f (NewManagerCollector ns c) manager = some (expectedStatus f manager)) ∧
    (GoMap.find managerMetrics "manager_health_state" = some ⟨manager_health_state_desc⟩ ∧
      GoMap.find managerMetrics "manager_state" = some ⟨manager_state_desc⟩ ∧
      GoMap.find managerMetrics "manager_power_state" = some ⟨manager_power_state_desc⟩ ∧
      ManagerLabelNames = ["manager_id", "name", "model", "type"]) ∧
    ((f.parseCommonStatusHealth manager.Status.Health).2 = true →
      (f.parseCommonStatusState manager.Status.State).2 = true →
      (f.parseCommonPowerState manager.PowerState).2 = true →
      expectedStatus f manager
        = [⟨manager_health_state_desc, (f.parseCommonStatusHealth manager.Status.Health).1,
             [manager.ID, manager.Name, manager.Model, manager.ManagerType]⟩,
           ⟨manager_state_desc, (f.parseCommonStatusState manager.Status.State).1,
             [manager.ID, manager.Name, manager.Model, manager.ManagerType]⟩,
           ⟨manager_power_state_desc, (f.parseCommonPowerState manager.PowerState).1,
             [manager.ID, manager.Name, manager.Model, manager.ManagerType]⟩]) := by
  refine ⟨⟨managersOut f it 0 pre, managerLogsOut it pre.length manager,
    managersOut f it (pre.length + 1) post, ?_, samplesOf_eq _ _ _ _,
    managerLogsOut_desc _ _ _, ?_⟩, fun c => managerStatus_eq f ns c manager,
    ⟨by decide, by decide, by decide, rfl⟩, ?_⟩
  · rw [samplesOf_eq, managersOut_split]
    simp [expectedStatus]
  · rw [samplesOf_eq, managersOut_shift f it (pre.length + 1)]
  · intro h1 h2 h3
    simp [expectedStatus, h1, h2, h3]

set_option maxRecDepth 10000 in
/-- C5, at one manager with health "OK", state "Enabled", power state "On": the three
status samples, each with the four identity labels, then the log counts. -/
theorem status_samples_per_valid_mapping_witness :
    samplesOf sampleMapping "redfish" storedOrder [bmc]
      = some [⟨manager_health_state_desc, 1, ["1", "Manager", "iDRAC", "BMC"]⟩,
              ⟨manager_state_desc, 1, ["1", "Manager", "iDRAC", "BMC"]⟩,
              ⟨manager_power_state_desc, 1, ["1", "Manager", "iDRAC", "BMC"]⟩,
              ⟨entry_count_desc, 2, ["SEL", "Critical"]⟩,
              ⟨entry_count_desc, 1, ["SEL", "Warning"]⟩] ∧
    expectedStatus sampleMapping bmc
      = [⟨manager_health_state_desc, 1, ["1", "Manager", "iDRAC", "BMC"]⟩,
         ⟨manager_state_desc, 1, ["1", "Manager", "iDRAC", "BMC"]⟩,
         ⟨manager_power_state_desc, 1, ["1", "Manager", "iDRAC", "BMC"]⟩] :=
  ⟨by decide,
   (status_samples_per_valid_mapping sampleMapping "redfish" storedOrder [] [] bmc).2.2.2
     (by decide) (by decide) (by decide)⟩

/-! ### Failures of child fetches -/

/-- C4: in the samples of one call of `ManagerCollector.Collect` over the managers
`pre ++ manager :: post`, the samples `A` of the managers before (those a call over `pre`
sends), the status samples of the manager and the samples `B` of the managers after
(those a call over `post` sends) are the same whatever the fetch `r` of the manager's log
services returns; only the run `logs` of its log counts depends on `r`, and it is empty
when the fetch fails. Likewise, among the log services `lpre ++ logService :: lpost` of
the manager, the samples `LA` and `LB` of the others are the same whatever the entry
fetch `e` of `logService` returns; only its own run `own` depends on `e`, and it is
empty when the fetch fails. -/
theorem child_fetch_failures_are_isolated (f : StateMapping) (ns : String)
    (it : Nat → Nat → Iteration (String × List LogEntry)) (pre post : List Manager)
    (manager : Manager) :
    ∃ A B : List Sample,
      samplesOf f ns it pre = some A ∧
      samplesOf f ns (shift it (pre.length + 1)) post = some B ∧
      (∀ r : Except String (List LogService), ∃ logs : List Sample,
        samplesOf f ns it (pre ++ { manager with LogServices := r } :: post)
          = some (A ++ expectedStatus f manager ++ logs ++ B) ∧
        (∀ c, managerLogServices (NewManagerCollector ns c) it pre.length
          { manager with LogServices := r } = some logs) ∧
        (∀ x ∈ logs, x.desc = entry_count_desc) ∧
        (∀ msg, r = .error msg → logs = [])) ∧
      (∀ (lpre lpost : List LogService) (logService : LogService), ∃ LA LB : List Sample,
        (∀ c, managerLogServices (NewManagerCollector ns c) it pre.length
          { manager with LogServices := .ok lpre } = some LA) ∧
        (∀ c, managerLogServices (NewManagerCollector ns c)
          (shiftInner it (lpre.length + 1)) pre.length
          { manager with LogServices := .ok lpost } = some LB) ∧
        (∀ e : Except String (List LogEntry), ∃ own : List Sample,
          samplesOf f ns it
            (pre ++ { manager with
                        LogServices := .ok (lpre ++ { logService with Entries := e } :: lpost) }
              :: post)
            = some (A ++ expectedStatus f manager ++ (LA ++ own ++ LB) ++ B) ∧
          (∀ c, logServiceBody (NewManagerCollector ns c) (it pre.length lpre.length)
            { logService with Entries := e } = some own) ∧
          (∀ msg, e = .error msg → own = []))) := by
  refine ⟨managersOut f it 0 pre, managersOut f it (pre.length + 1) post,
    samplesOf_eq _ _ _ _, ?_, ?_, ?_⟩
  · rw [samplesOf_eq, managersOut_shift f it (pre.length + 1)]
  · intro r
    refine ⟨managerLogsOut it pre.length { manager with LogServices := r }, ?_,
      fun c => managerLogServices_eq ns c _ _ _, managerLogsOut_desc _ _ _, ?_⟩
    · rw [samplesOf_eq, managersOut_split]
      simp [expectedStatus]
    · intro msg hr
      subst hr
      rfl
  · intro lpre lpost logService
    refine ⟨concatFrom (fun j ls => logServiceOut (it pre.length j) ls) 0 lpre,
      concatFrom (fun j ls => logServiceOut (it pre.length j) ls) (lpre.length + 1) lpost,
      fun c => managerLogServices_eq ns c _ _ _, ?_, ?_⟩
    · intro c
      rw [managerLogServices_eq, managerLogsOut_inner_shift]
      rfl
    · intro e
      refine ⟨logServiceOut (it pre.length lpre.length) { logService with Entries := e }, ?_,
        fun c => logServiceBody_eq ns c _ _, ?_⟩
      · rw [samplesOf_eq, managersOut_split,
          managerLogsOut_split it _ _ lpre lpost { logService with Entries := e } rfl]
        simp [expectedStatus]
      · intro msg he
        subst he
        rfl

set_option maxRecDepth 10000 in
/-- C4, at three managers where the log-service fetch of the middle one times out: its
three status samples are sent, none of its log counts, and the samples of the first and
the third manager are those of calls over them alone. -/
theorem child_fetch_failures_are_isolated_witness :
    (∃ A B : List Sample,
      samplesOf sampleMapping "redfish" storedOrder [bmc] = some A ∧
      samplesOf sampleMapping "redfish" (shift storedOrder 2) [bmc3] = some B ∧
      samplesOf sampleMapping "redfish" storedOrder
          ([bmc] ++ { bmc2 with LogServices := .error "timeout" } :: [bmc3])
        = some (A ++ expectedStatus sampleMapping bmc2 ++ [] ++ B)) ∧
    samplesOf sampleMapping "redfish" storedOrder
        [bmc, { bmc2 with LogServices := .error "timeout" }, bmc3]
      = some [⟨manager_health_state_desc, 1, ["1", "Manager", "iDRAC", "BMC"]⟩,
              ⟨manager_state_desc, 1, ["1", "Manager", "iDRAC", "BMC"]⟩,
              ⟨manager_power_state_desc, 1, ["1", "Manager", "iDRAC", "BMC"]⟩,
              ⟨entry_count_desc, 2, ["SEL", "Critical"]⟩,
              ⟨entry_count_desc, 1, ["SEL", "Warning"]⟩,
              ⟨manager_health_state_desc, 1, ["2", "Manager", "iDRAC", "BMC"]⟩,
              ⟨manager_state_desc, 1, ["2", "Manager", "iDRAC", "BMC"]⟩,
              ⟨manager_power_state_desc, 1, ["2", "Manager", "iDRAC", "BMC"]⟩,
              ⟨manager_health_state_desc, 1, ["3", "Manager", "iDRAC", "BMC"]⟩,
              ⟨manager_state_desc, 1, ["3", "Manager", "iDRAC", "BMC"]⟩,
              ⟨manager_power_state_desc, 1, ["3", "Manager", "iDRAC", "BMC"]⟩,
              ⟨entry_count_desc, 1, ["Lclog", "Critical"]⟩] := by
  constructor
  · obtain ⟨A, B, hA, hB, hr, _⟩ :=
      child_fetch_failures_are_isolated sampleMapping "redfish" storedOrder [bmc] [bmc3] bmc2
    obtain ⟨logs, h1, _, _, h4⟩ := hr (.error "timeout")
    have h5 := h4 "timeout" rfl
    subst h5
    exact ⟨A, B, hA, hB, h1⟩
  · decide

/-! ### Describe of the manager collector -/

theorem describe_loop (l : List (String × managerMetric)) (ch : List Desc) :
    l.foldl (fun ch metric => ch ++ [metric.2.desc]) ch = ch ++ l.map (·.2.desc) := by
  induction l generalizing ch with
  | nil => simp
  | cons x l ih => simp [ih]

set_option maxRecDepth 10000 in
/-- C6: whatever the order of the `range` in `ManagerCollector.Describe`, the descriptor
of `entry_count` is not among the descriptors it sends, which are the three manager
descriptors and the scrape-status one for every client; yet `ManagerCollector.Collect`
sends `entry_count` samples for a manager with a log service that has entries. -/
theorem Describe_omits_entry_count :
    (∀ (c : APIClient) (it : Iteration (String × managerMetric)),
      entry_count_desc ∉ ManagerCollector.Describe (NewManagerCollector "redfish" c) it ∧
      (ManagerCollector.Describe (NewManagerCollector "redfish" c) it).Perm
        [manager_state_desc, manager_health_state_desc, manager_power_state_desc,
          ⟨"redfish_collector_scrape_status", "collector_scrape_status", ["collector"]⟩]) ∧
    ∃ out x, samplesOf sampleMapping "redfish" storedOrder [bmc] = some out ∧
      x ∈ out ∧ x.desc = entry_count_desc := by
  constructor
  · intro c it
    have hperm : (ManagerCollector.Describe (NewManagerCollector "redfish" c) it).Perm
        [manager_state_desc, manager_health_state_desc, manager_power_state_desc,
          ⟨"redfish_collector_scrape_status", "collector_scrape_status", ["collector"]⟩] := by
      unfold ManagerCollector.Describe
      rw [describe_loop, List.nil_append]
      have h := ((it.perm (NewManagerCollector "redfish" c).metrics).map (·.2.desc)).append_right
        (NewManagerCollector "redfish" c).collectorScrapeStatus.Describe
      refine h.trans ?_
      have e : (NewManagerCollector "redfish" c).metrics.map (·.2.desc)
          ++ (NewManagerCollector "redfish" c).collectorScrapeStatus.Describe
          = [manager_state_desc, manager_health_state_desc, manager_power_state_desc,
              ⟨"redfish_collector_scrape_status", "collector_scrape_status", ["collector"]⟩] := by
        simp only [NewManagerCollector]
        decide
      rw [e]
    refine ⟨?_, hperm⟩
    intro hmem
    have h2 := hperm.mem_iff.1 hmem
    revert h2
    decide
  · exact ⟨_, ⟨entry_count_desc, 2, ["SEL", "Critical"]⟩, samplesOf_eq _ _ _ _, by decide, rfl⟩

/-! ### The label values of the log counts -/

theorem entryCountLabels_logServiceOut (it : Iteration (String × List LogEntry))
    (logService : LogService) :
    (entryCountLabels (logServiceOut it logService)).Nodup ∧
    ∀ l ∈ entryCountLabels (logServiceOut it logService), l.head? = some logService.Name := by
  unfold entryCountLabels logServiceOut
  cases logService.Entries with
  | error e => simp
  | ok L =>
    simp only
    have hfilter : ∀ l : List (String × List LogEntry),
        ((l.map (fun kv => (⟨entry_count_desc, (kv.2.length : ℚ), [logService.Name, kv.1]⟩ : Sample))).filter
          (fun x => decide (x.desc = entry_count_desc))).map (·.labelValues)
        = (l.map Prod.fst).map (fun k => [logService.Name, k]) := by
      intro l
      induction l with
      | nil => rfl
      | cons kv l ih => simp [List.filter_cons, ih]
    rw [hfilter]
    constructor
    · apply List.Nodup.map
      · intro a b hab
        simpa using hab
      · exact ((it.perm _).map Prod.fst).nodup_iff.2 (entryMapOf_grouped L).1
    · intro l hl
      obtain ⟨k, _, rfl⟩ := List.mem_map.1 hl
      rfl

set_option maxRecDepth 10000 in
/-- C10: two managers each return a log service called "SEL" with a Critical entry; one
call of `ManagerCollector.Collect` then sends two `entry_count` samples with the label
values ("SEL", "Critical"), and so it does when two log services of one manager are
called "SEL". Only the samples of one and the same log service always differ in their
label values. -/
theorem entry_count_labels_repeat :
    samplesOf sampleMapping "redfish" storedOrder [bmc, bmc2]
      = some [⟨manager_health_state_desc, 1, ["1", "Manager", "iDRAC", "BMC"]⟩,
              ⟨manager_state_desc, 1, ["1", "Manager", "iDRAC", "BMC"]⟩,
              ⟨manager_power_state_desc, 1, ["1", "Manager", "iDRAC", "BMC"]⟩,
              ⟨entry_count_desc, 2, ["SEL", "Critical"]⟩,
              ⟨entry_count_desc, 1, ["SEL", "Warning"]⟩,
              ⟨manager_health_state_desc, 1, ["2", "Manager", "iDRAC", "BMC"]⟩,
              ⟨manager_state_desc, 1, ["2", "Manager", "iDRAC", "BMC"]⟩,
              ⟨manager_power_state_desc, 1, ["2", "Manager", "iDRAC", "BMC"]⟩,
              ⟨entry_count_desc, 1, ["SEL", "Critical"]⟩] ∧
    (∃ out, samplesOf sampleMapping "redfish" storedOrder [bmc, bmc2] = some out ∧
      ¬ (entryCountLabels out).Nodup) ∧
    (∃ out, samplesOf sampleMapping "redfish" storedOrder
        [{ bmc with LogServices := .ok [sel, sel] }] = some out ∧
      ¬ (entryCountLabels out).Nodup) ∧
    (∀ (ns : String) (c : APIClient) (it : Iteration (String × List LogEntry))
        (logService : LogService), ∃ out,
      logServiceBody (NewManagerCollector ns c) it logService = some out ∧
      (entryCountLabels out).Nodup) := by
  refine ⟨by decide, ?_, ?_, ?_⟩
  · refine ⟨_, samplesOf_eq _ _ _ _, ?_⟩
    decide
  · refine ⟨_, samplesOf_eq _ _ _ _, ?_⟩
    decide
  · intro ns c it logService
    exact ⟨_, logServiceBody_eq ns c it logService,
      (entryCountLabels_logServiceOut it logService).1⟩

end Collector
